import Mathlib

/-!
Shallow embedding of the `stack-based-vec` crate: `ArrayVec<T, N>`
(src/lib.rs), its `Drain` guard (src/drain.rs) and its `Splice` guard
(src/splice.rs).

The physical backing store (`data: MaybeUninit<[T; N]>`) is modelled as a
total function `Nat → α`: slot `i` holds `data i`; slots the Rust code never
initialises hold an arbitrary `default` value.  `ptr::copy` is memmove and
reads the pre-state; `ptr::copy_nonoverlapping` coincides with it on the
disjoint ranges the code uses it on.  A panic is modelled as `none`.  An
operation that takes `&mut self` is modelled as a function from the old
vector state to the new one (paired with its return value).  The guards'
`NonNull` back-reference into the parent vector is modelled by passing the
vector state explicitly next to the guard state.
-/

namespace StackVec

/-- One store write: `ptr.add(i).write(x)` on a store `f`. -/
def ptrWrite (f : Nat → α) (i : Nat) (x : α) : Nat → α :=
  fun j => if j = i then x else f j

/-- `ptr::copy(src, dst, cnt)` (memmove): afterwards slot `dst + k`
(`k < cnt`) holds the pre-state's slot `src + k`; other slots are kept. -/
def ptrCopy (f : Nat → α) (src dst cnt : Nat) : Nat → α :=
  fun j => if dst ≤ j ∧ j < dst + cnt then f (src + (j - dst)) else f j

/-- `ptr::copy_nonoverlapping(other.as_ptr(), dst, other.len())` where the
source is an external slice `l` (the ranges are disjoint from the store). -/
def writeList [Inhabited α] (f : Nat → α) (dst : Nat) (l : List α) : Nat → α :=
  fun j => if dst ≤ j ∧ j < dst + l.length then l.getD (j - dst) default else f j

/-- `pub struct ArrayVec<T, const N: usize> { data: MaybeUninit<[T; N]>, len: usize }`
(src/lib.rs lines 51-54). -/
structure ArrayVec (α : Type) (N : Nat) where
  data : Nat → α
  len : Nat

variable {α : Type} [Inhabited α] {N : Nat}

namespace ArrayVec

/-- `ArrayVec::new()`: uninitialised storage, `len: 0`. -/
def new : ArrayVec α N :=
  ⟨fun _ => default, 0⟩

/-- `ArrayVec::from_array(array: [T; N])`: `data: MaybeUninit::new(array)`,
`len: N`. -/
def from_array (l : List α) : ArrayVec α l.length :=
  ⟨writeList (fun _ => default) 0 l, l.length⟩

/-- `ArrayVec::from_partial_array(array: [T; M])`: panics (`none`) when
`M > N`, otherwise copies the `M` elements into fresh storage and sets
`len = M` (src/lib.rs lines 91-106). -/
def from_partial_array (l : List α) : Option (ArrayVec α N) :=
  if l.length > N then none
  else some ⟨writeList (fun _ => default) 0 l, l.length⟩

/-- `ArrayVec::as_slice`: the view of slots `[0, len)`. -/
def as_slice (v : ArrayVec α N) : List α :=
  (List.range v.len).map v.data

/-- `ArrayVec::make_filled_array::<M>`: when `len >= M`, decrement `len` by
`M`, read the first `M` slots out as the array, then `ptr::copy` the
remaining `len` elements from offset `M` down to offset `0`
(src/lib.rs lines 108-125). -/
def make_filled_array (v : ArrayVec α N) (M : Nat) : ArrayVec α N × Option (List α) :=
  if M ≤ v.len then
    (⟨ptrCopy v.data M 0 (v.len - M), v.len - M⟩, some ((List.range M).map v.data))
  else
    (v, none)

/-- `ArrayVec::push`: panics (`none`) when `len == N`; otherwise writes the
element at offset `len` and increments `len` (src/lib.rs lines 220-228). -/
def push (v : ArrayVec α N) (e : α) : Option (ArrayVec α N) :=
  if v.len = N then none
  else some ⟨ptrWrite v.data v.len e, v.len + 1⟩

/-- `ArrayVec::try_push`: `Err(element)` (modelled `some e` in the second
component) when `len == N`, leaving the vector untouched; otherwise writes at
offset `len`, increments `len`, returns `Ok(())` (src/lib.rs lines 230-240). -/
def try_push (v : ArrayVec α N) (e : α) : ArrayVec α N × Option α :=
  if v.len = N then (v, some e)
  else (⟨ptrWrite v.data v.len e, v.len + 1⟩, none)

/-- `ArrayVec::pop`: `None` when empty, else decrement `len` and read the
slot at the new `len` (src/lib.rs lines 255-263). -/
def pop (v : ArrayVec α N) : ArrayVec α N × Option α :=
  if v.len = 0 then (v, none)
  else (⟨v.data, v.len - 1⟩, some (v.data (v.len - 1)))

/-- `ArrayVec::insert`: `Err(element)` when `idx > len` or `len == N`; else
`ptr.copy_to(ptr.add(1), len - idx)` (shift up), write at `idx`, `len += 1`
(src/lib.rs lines 553-564). -/
def insert (v : ArrayVec α N) (idx : Nat) (e : α) : ArrayVec α N × Option α :=
  if idx > v.len ∨ v.len = N then (v, some e)
  else (⟨ptrWrite (ptrCopy v.data idx (idx + 1) (v.len - idx)) idx e, v.len + 1⟩, none)

/-- `ArrayVec::remove`: `None` when `idx >= len`; else read slot `idx`,
`ptr.copy_from(ptr.add(1), len - idx - 1)` (shift down), `len -= 1`
(src/lib.rs lines 576-587). -/
def remove (v : ArrayVec α N) (idx : Nat) : ArrayVec α N × Option α :=
  if idx ≥ v.len then (v, none)
  else (⟨ptrCopy v.data (idx + 1) idx (v.len - idx - 1), v.len - 1⟩, some (v.data idx))

/-- `ArrayVec::swap_remove`: `None` when `idx >= len`; else `len -= 1`, and
when the vector is now empty just read slot 0, otherwise read the last
element and write it into the hole at `idx` (src/lib.rs lines 694-713). -/
def swap_remove (v : ArrayVec α N) (idx : Nat) : ArrayVec α N × Option α :=
  if idx ≥ v.len then (v, none)
  else if v.len - 1 = 0 then (⟨v.data, 0⟩, some (v.data 0))
  else (⟨ptrWrite v.data idx (v.data (v.len - 1)), v.len - 1⟩, some (v.data idx))

/-- `ArrayVec::truncate`: no-op when `len > self.len`; else drop the suffix
(a side effect with no observable store change) and set the length
(src/lib.rs lines 725-733). -/
def truncate (v : ArrayVec α N) (len : Nat) : ArrayVec α N :=
  if len > v.len then v else ⟨v.data, len⟩

/-- `ArrayVec::clear` = `truncate(0)` (src/lib.rs lines 337-339). -/
def clear (v : ArrayVec α N) : ArrayVec α N :=
  v.truncate 0

/-- `ArrayVec::extend_from_copyable_slice`: with `remaining = N - len`, if the
slice is longer than `remaining` copy just `remaining` elements, set
`len = N` and return the unconsumed suffix as `Err`; otherwise copy all of it
and add its length to `len` (src/lib.rs lines 507-534). -/
def extend_from_copyable_slice (v : ArrayVec α N) (other : List α) :
    ArrayVec α N × Option (List α) :=
  if other.length > N - v.len then
    (⟨writeList v.data v.len (other.take (N - v.len)), N⟩, some (other.drop (N - v.len)))
  else
    (⟨writeList v.data v.len other, v.len + other.length⟩, none)

/-- `ArrayVec::split_off`: `None` when `at > len`; else the original keeps
`[0, at)` and a new vector receives a nonoverlapping copy of `[at, len)`
(src/lib.rs lines 662-680). -/
def split_off (v : ArrayVec α N) (idx : Nat) : ArrayVec α N × Option (ArrayVec α N) :=
  if idx > v.len then (v, none)
  else (⟨v.data, idx⟩,
        some ⟨fun j => if j < v.len - idx then v.data (idx + j) else default, v.len - idx⟩)

/-- The `Extend` impl (src/lib.rs lines 831-842): push each element of
`iter.take(remaining_capacity)`.  The `take` bound keeps every `push` inside
capacity whenever `len ≤ N`, so the panic branch of `push` is unreachable
there; a (then impossible) panic is modelled by keeping the state. -/
def extend (v : ArrayVec α N) (l : List α) : ArrayVec α N :=
  (l.take (N - v.len)).foldl (fun acc e => (acc.push e).getD acc) v

end ArrayVec

/-- `pub struct Drain<'a, T, const N: usize>` (src/drain.rs lines 10-18):
`iter` is the captured not-yet-yielded range (the code's `slice::Iter` over
slots `[start, end)`, whose elements nothing writes while the guard is
alive), `tail_start`/`tail_len` describe the preserved tail.  The `vec`
back-reference is modelled by explicit state passing. -/
structure Drain (α : Type) where
  iter : List α
  tail_start : Nat
  tail_len : Nat
  deriving DecidableEq, Repr

namespace ArrayVec

/-- `ArrayVec::drain` for the half-open request `[start, stop)` (after the
`RangeBounds` normalisation of src/lib.rs lines 420-430): `None` (vector
untouched) when `start > end || end > len`; otherwise set `self.len = start`
and hand out the guard (src/lib.rs lines 414-449). -/
def drain (v : ArrayVec α N) (start stop : Nat) : Option (Drain α) × ArrayVec α N :=
  if start > stop ∨ stop > v.len then (none, v)
  else (some ⟨(List.range (stop - start)).map (fun i => v.data (start + i)), stop, v.len - stop⟩,
        ⟨v.data, start⟩)

end ArrayVec

namespace Drain

/-- `Iterator::next` for `Drain`: read the front of the remaining range. -/
def next (d : Drain α) : Drain α × Option α :=
  match d.iter with
  | [] => (d, none)
  | x :: xs => (⟨xs, d.tail_start, d.tail_len⟩, some x)

/-- `DoubleEndedIterator::next_back` for `Drain`: read the back. -/
def next_back (d : Drain α) : Drain α × Option α :=
  match d.iter.getLast? with
  | none => (d, none)
  | some x => (⟨d.iter.dropLast, d.tail_start, d.tail_len⟩, some x)

/-- `Drop for Drain` (src/drain.rs lines 52-91): drop every remaining
un-yielded element, then, when a tail exists, `ptr::copy` it from
`tail_start` down to the vector's current `len` (skipped when the two
coincide) and set `len = start + tail_len`. -/
def release (d : Drain α) (v : ArrayVec α N) : ArrayVec α N :=
  if 0 < d.tail_len then
    ⟨if d.tail_start ≠ v.len then ptrCopy v.data d.tail_start v.len d.tail_len else v.data,
     v.len + d.tail_len⟩
  else v

/-- `Drain::fill` (src/splice.rs lines 92-108): walk the vacated range
`[vec.len, tail_start)` slot by slot; write the replacement's next item into
each slot, bumping `vec.len`, and report `false` when the replacement runs
out first.  The recursion is on the size of the range. -/
def fillGo (gap : Nat) (v : ArrayVec α N) (rep : List α) :
    ArrayVec α N × List α × Bool :=
  match gap, rep with
  | 0, rep => (v, rep, true)
  | _ + 1, [] => (v, [], false)
  | g + 1, x :: xs => fillGo g ⟨ptrWrite v.data v.len x, v.len + 1⟩ xs

/-- `Drain::fill`, entered at the current gap `[vec.len, tail_start)`. -/
def fill (d : Drain α) (v : ArrayVec α N) (rep : List α) :
    ArrayVec α N × List α × Bool :=
  fillGo (d.tail_start - v.len) v rep

/-- `Drain::move_tail` (src/splice.rs lines 111-119): `ptr::copy` the tail
`additional` slots upward and advance `tail_start`; no capacity check. -/
def move_tail (d : Drain α) (v : ArrayVec α N) (additional : Nat) :
    Drain α × ArrayVec α N :=
  (⟨d.iter, d.tail_start + additional, d.tail_len⟩,
   ⟨ptrCopy v.data d.tail_start (d.tail_start + additional) d.tail_len, v.len⟩)

end Drain

namespace ArrayVec

/-- `ArrayVec::splice` (src/lib.rs lines 637-650): builds the `Splice` guard
from the `drain` guard (propagating its `None`) and the replacement
sequence.  The replacement iterator is a list-backed iterator, whose
`size_hint` lower bound is its exact remaining length. -/
def splice (v : ArrayVec α N) (start stop : Nat) (rep : List α) :
    Option (Drain α × List α) × ArrayVec α N :=
  match v.drain start stop with
  | (none, v1) => (none, v1)
  | (some d, v1) => (some (d, rep), v1)

end ArrayVec

namespace Splice

/-- The final `collect` stage of `Drop for Splice` (src/splice.rs lines
50-63): collect the remaining replacement items to get an exact count and,
when it is positive, `move_tail` by that count and fill the opened slots. -/
def collectStage (d : Drain α) (v : ArrayVec α N) (rep : List α) :
    Drain α × ArrayVec α N :=
  if rep.length > 0 then
    let q := d.move_tail v rep.length
    (q.1, (q.1.fill q.2 rep).1)
  else (d, v)

/-- The body of `Drop for Splice` (src/splice.rs lines 26-66), after the
remaining drain items have been dropped: when no tail exists, `extend` the
vector with the whole replacement and stop; otherwise fill the vacated gap,
and if it was filled completely use the replacement iterator's `size_hint`
lower bound (exact for a list-backed iterator) to `move_tail` and fill
again, then collect any remainder for one final `move_tail` and fill. -/
def body (d : Drain α) (rep : List α) (v : ArrayVec α N) :
    Drain α × ArrayVec α N :=
  if d.tail_len = 0 then (d, v.extend rep)
  else
    match d.fill v rep with
    | (v1, _, false) => (d, v1)
    | (v1, rep1, true) =>
      if rep1.length > 0 then
        let p := d.move_tail v1 rep1.length
        match p.1.fill p.2 rep1 with
        | (v2, _, false) => (p.1, v2)
        | (v2, rep2, true) => collectStage p.1 v2 rep2
      else collectStage d v1 rep1

/-- `Drop for Splice` in full: first the remaining drain items are dropped
(`iter` emptied), then the gap-fill body runs, then the inner `Drain`'s own
drop (`release`) restores the tail and the final length. -/
def release (d : Drain α) (rep : List α) (v : ArrayVec α N) : ArrayVec α N :=
  let p := body ⟨[], d.tail_start, d.tail_len⟩ rep v
  p.1.release p.2

end Splice

/-- The drop glue of `ArrayVec` itself, as the list of elements it destroys:
the crate defines no `impl Drop for ArrayVec` (src/lib.rs declares the type
at lines 51-54 and implements `Copy` for copyable element types at line 805,
which rules a `Drop` impl out), and dropping `MaybeUninit<[T; N]>` and
`usize` runs no element destructor — so destroying a vector destroys none of
its elements. -/
def destructor_dropped (_v : ArrayVec α N) : List α := []

namespace ArrayVec

theorem length_as_slice (v : ArrayVec α N) : v.as_slice.length = v.len := by
  simp [as_slice]

theorem getElem_as_slice (v : ArrayVec α N) {i : Nat} (h : i < v.as_slice.length) :
    v.as_slice[i] = v.data i := by
  simp [as_slice]

theorem take_as_slice (v : ArrayVec α N) {k : Nat} (h : k ≤ v.len) :
    v.as_slice.take k = (List.range k).map v.data := by
  rw [as_slice, ← List.map_take, List.take_range, Nat.min_eq_left h]

theorem drop_as_slice (v : ArrayVec α N) (k : Nat) :
    v.as_slice.drop k = (List.range (v.len - k)).map (fun j => v.data (k + j)) := by
  apply List.ext_getElem
  · simp [length_as_slice]
  · intro i hi1 hi2
    rw [List.getElem_drop, getElem_as_slice]
    simp

end ArrayVec

/-- The vector of the spec's concrete scenarios: capacity 3 holding
`[1, 2, 3]`. -/
def v123 : ArrayVec Nat 3 :=
  (ArrayVec.from_array [1, 2, 3] : ArrayVec Nat 3)

/-- A full vector of capacity 2 holding `[1, 2]`. -/
def v12 : ArrayVec Nat 2 :=
  (ArrayVec.from_array [1, 2] : ArrayVec Nat 2)

/-- A vector of capacity 2 holding just `[2]`. -/
def vOne : ArrayVec Nat 2 :=
  (ArrayVec.from_partial_array [2] : Option (ArrayVec Nat 2)).getD ArrayVec.new

/-- The splice scenario that exercises `Drain::move_tail` with a replacement
longer than the vacated gap while a tail exists: capacity 3, contents
`[1, 2, 3]`, `splice(1..2, [7, 8, 9])`, guard released without consuming
any yielded item. -/
def spliceScenario : ArrayVec Nat 3 :=
  match v123.splice 1 2 [7, 8, 9] with
  | (some p, v1) => Splice.release p.1 p.2 v1
  | (none, v1) => v1

/-- A sequence of `try_push` calls applied left to right, together with the
count of accepted (`Ok`) pushes. -/
def try_push_seq (v : ArrayVec α N) (l : List α) : ArrayVec α N × Nat :=
  match l with
  | [] => (v, 0)
  | e :: rest =>
    let p := v.try_push e
    let q := try_push_seq p.1 rest
    (q.1, q.2 + (if p.2.isNone then 1 else 0))

theorem try_push_seq_len (v : ArrayVec α N) (l : List α) :
    (try_push_seq v l).1.len = v.len + (try_push_seq v l).2 := by
  induction l generalizing v with
  | nil => simp [try_push_seq]
  | cons e rest ih =>
    by_cases h : v.len = N
    · simpa [try_push_seq, ArrayVec.try_push, h] using ih v
    · have := ih (⟨ptrWrite v.data v.len e, v.len + 1⟩ : ArrayVec α N)
      simp [try_push_seq, ArrayVec.try_push, h, this]
      omega

/-- Appending one element, observed through `as_slice`. -/
theorem as_slice_write_at_len (v : ArrayVec α N) (e : α) :
    (ArrayVec.mk (ptrWrite v.data v.len e) (v.len + 1) : ArrayVec α N).as_slice
      = v.as_slice ++ [e] := by
  apply List.ext_getElem
  · simp [ArrayVec.length_as_slice, ArrayVec.as_slice]
  · intro i hi1 hi2
    simp only [ArrayVec.as_slice, List.getElem_map, List.getElem_range, ptrWrite]
    simp only [ArrayVec.as_slice, List.length_map, List.length_range] at hi1
    rw [List.getElem_append]
    by_cases hx : i = v.len
    · simp [hx, ArrayVec.length_as_slice, ArrayVec.as_slice]
    · have hlt : i < v.len := by omega
      simp [hx, hlt, ArrayVec.length_as_slice, ArrayVec.as_slice, List.getElem_map,
        List.getElem_range]

/-- C5 counterexample: destroying the capacity-3 vector holding `[1, 2, 3]`
(initialized prefix of length 3) destroys zero elements, not exactly the 3
elements of the prefix: the crate has no `Drop` impl for `ArrayVec`, so the
prefix is leaked. -/
theorem destructor_drops_no_elements_cex :
    (destructor_dropped v123).length ≠ v123.len ∧
    destructor_dropped v123 ≠ v123.as_slice := by
  decide

/-- C5 (amended): destroying a container runs no element destructor at all —
the drop glue of `ArrayVec` destroys the empty collection of elements, for
every container state; in particular the slots of the uninitialized suffix
are not dropped, and neither are those of the initialized prefix (they are
leaked). -/
theorem destructor_drops_nothing (v : ArrayVec α N) : destructor_dropped v = [] :=
  rfl

/-- C6 counterexample: `from_partial_array` with a 2-element array into
capacity 1 panics (modelled `none`): no container of length `min 2 1 = 1` is
produced — the requested length is rejected, not clamped. -/
theorem from_partial_array_rejects_larger :
    ¬ ∃ w : ArrayVec Nat 1,
        (ArrayVec.from_partial_array [1, 2] : Option (ArrayVec Nat 1)) = some w := by
  rintro ⟨w, hw⟩
  rw [show (ArrayVec.from_partial_array [1, 2] : Option (ArrayVec Nat 1)) = none from rfl] at hw
  exact Option.noConfusion hw

/-- C6 (amended): constructing a container from an array of `M` elements via
`from_partial_array` yields length `M` (with exactly those contents) when
`M ≤ N`, and panics — yields no container — when `M > N`; the length is
never clamped. -/
theorem from_partial_array_spec (l : List α) :
    (l.length ≤ N →
       Option.map ArrayVec.len (ArrayVec.from_partial_array l : Option (ArrayVec α N))
         = some l.length ∧
       Option.map ArrayVec.as_slice (ArrayVec.from_partial_array l : Option (ArrayVec α N))
         = some l) ∧
    (l.length > N → (ArrayVec.from_partial_array l : Option (ArrayVec α N)) = none) := by
  constructor
  · intro h
    have hc : ¬l.length > N := by omega
    refine ⟨by simp [ArrayVec.from_partial_array, hc], ?_⟩
    simp only [ArrayVec.from_partial_array, hc, if_false, Option.map_some']
    congr 1
    apply List.ext_getElem
    · simp [ArrayVec.as_slice]
    · intro i hi1 hi2
      simp only [ArrayVec.as_slice, List.getElem_map, List.getElem_range, writeList]
      simp only [ArrayVec.as_slice, List.length_map, List.length_range] at hi1
      rw [if_pos ⟨Nat.zero_le i, by omega⟩]
      simpa using List.getD_eq_getElem l default hi2
  · intro h
    simp [ArrayVec.from_partial_array, h]

/-- C6 witness: capacity 2 accepts a 1-element array (length 1, contents
`[5]`); a 3-element array into capacity 2 yields no container. -/
theorem from_partial_array_spec_instance :
    (Option.map ArrayVec.len (ArrayVec.from_partial_array [5] : Option (ArrayVec Nat 2))
       = some 1 ∧
     Option.map ArrayVec.as_slice (ArrayVec.from_partial_array [5] : Option (ArrayVec Nat 2))
       = some [5]) ∧
    (ArrayVec.from_partial_array [1, 2, 3] : Option (ArrayVec Nat 2)) = none :=
  ⟨(from_partial_array_spec [5]).1 (by decide),
   (from_partial_array_spec [1, 2, 3]).2 (by decide)⟩

/-- C7: `drain` hands out a guard exactly when `start ≤ end ∧ end ≤ len`
holds for the requested range, and an out-of-range request returns `None`
with the container left fully unmodified. -/
theorem drain_bounds_spec (v : ArrayVec α N) (start stop : Nat) :
    ((v.drain start stop).1.isSome ↔ start ≤ stop ∧ stop ≤ v.len) ∧
    (¬(start ≤ stop ∧ stop ≤ v.len) → v.drain start stop = (none, v)) := by
  constructor
  · by_cases h : start > stop ∨ stop > v.len
    · simp only [ArrayVec.drain, if_pos h, Option.isSome_none, Bool.false_eq_true, false_iff]
      omega
    · simp only [ArrayVec.drain, if_neg h, Option.isSome_some, true_iff]
      omega
  · intro h
    have hc : start > stop ∨ stop > v.len := by omega
    simp [ArrayVec.drain, hc]

/-- C7 witness: on `[1, 2, 3]` the reversed range `[2, 1)` yields no guard
and leaves the vector unmodified, while the valid range `[1, 3)` yields a
guard. -/
theorem drain_bounds_instance :
    v123.drain 2 1 = (none, v123) ∧ (v123.drain 1 3).1.isSome :=
  ⟨(drain_bounds_spec v123 2 1).2 (by decide),
   (drain_bounds_spec v123 1 3).1.mpr (by decide)⟩

/-- C10: each fallible operation, at its failure condition, returns the
failure signal (`Err(element)` rsp. `None`) with the container's state
exactly as it was: `try_push` on a full vector, `insert` out of range or at
capacity, `remove` and `swap_remove` out of range, `split_off` past the
length. -/
theorem fallible_ops_atomic_on_failure (v : ArrayVec α N) (e : α) (idx : Nat) :
    (v.len = N → v.try_push e = (v, some e)) ∧
    (idx > v.len ∨ v.len = N → v.insert idx e = (v, some e)) ∧
    (idx ≥ v.len → v.remove idx = (v, none)) ∧
    (idx ≥ v.len → v.swap_remove idx = (v, none)) ∧
    (idx > v.len → v.split_off idx = (v, none)) := by
  refine ⟨fun h => ?_, fun h => ?_, fun h => ?_, fun h => ?_, fun h => ?_⟩ <;>
    simp [ArrayVec.try_push, ArrayVec.insert, ArrayVec.remove, ArrayVec.swap_remove,
      ArrayVec.split_off, h]

/-- C10 witness: a full capacity-2 vector rejects `try_push 9` unchanged, and
`remove 5` on it fails unchanged. -/
theorem fallible_ops_atomic_instance :
    v12.try_push 9 = (v12, some 9) ∧ v12.remove 5 = (v12, none) :=
  ⟨(fallible_ops_atomic_on_failure v12 9 5).1 rfl,
   (fallible_ops_atomic_on_failure v12 9 5).2.2.1 (by decide)⟩

/-- C4 counterexample: on a full vector (capacity 2 holding `[1, 2]`),
`push(9)` panics with "capacity overflow" (modelled `none`) — it does not
fail by returning the rejected element; that behaviour belongs to
`try_push`. -/
theorem push_full_panics : v12.push 9 = none ∧ v12.len = 2 :=
  ⟨rfl, rfl⟩

/-- C4 (amended): when `length == N`, `push` panics while `try_push` fails by
returning the rejected element with the container unchanged; otherwise both
write the element at offset `length` and increment `length` (observable as
appending to the slice).  After any sequence of `try_push` calls starting
from empty, `len()` equals the number of accepted pushes. -/
theorem try_push_spec (v : ArrayVec α N) (e : α) (l : List α) :
    (v.len = N → v.push e = none ∧ v.try_push e = (v, some e)) ∧
    (v.len ≠ N →
       (v.try_push e).2 = none ∧
       (v.try_push e).1.as_slice = v.as_slice ++ [e] ∧
       v.push e = some (v.try_push e).1) ∧
    (try_push_seq (ArrayVec.new : ArrayVec α N) l).1.len
      = (try_push_seq (ArrayVec.new : ArrayVec α N) l).2 := by
  refine ⟨fun h => ⟨by simp [ArrayVec.push, h], by simp [ArrayVec.try_push, h]⟩,
          fun h => ⟨by simp [ArrayVec.try_push, h], ?_, by simp [ArrayVec.push, ArrayVec.try_push, h]⟩,
          ?_⟩
  · simp only [ArrayVec.try_push, if_neg h]
    exact as_slice_write_at_len v e
  · have := try_push_seq_len (ArrayVec.new : ArrayVec α N) l
    simpa [ArrayVec.new] using this

/-- C4 witness: the full `[1, 2]` panics on `push 9` and `try_push 9` returns
the element unchanged; `[2]` accepts `try_push 4` giving `[2, 4]`; three
`try_push` calls into an empty capacity-2 vector accept exactly 2. -/
theorem try_push_spec_instance :
    (v12.push 9 = none ∧ v12.try_push 9 = (v12, some 9)) ∧
    (vOne.try_push 4).2 = none ∧
    (vOne.try_push 4).1.as_slice = [2, 4] ∧
    (try_push_seq (ArrayVec.new : ArrayVec Nat 2) [1, 2, 3]).1.len
      = (try_push_seq (ArrayVec.new : ArrayVec Nat 2) [1, 2, 3]).2 := by
  refine ⟨(try_push_spec v12 9 []).1 rfl,
          ((try_push_spec vOne 4 []).2.1 (by decide)).1, ?_,
          (try_push_spec v12 9 [1, 2, 3]).2.2⟩
  rw [((try_push_spec vOne 4 []).2.1 (by decide)).2.1]
  decide

/-- C8: `extend_from_copyable_slice` appends the whole slice and succeeds
when it fits in the remaining capacity `N - len`; a longer slice gets
exactly the prefix that fits copied, leaves the container full
(`length = N`), and returns the unconsumed suffix as the failure value. -/
theorem extend_from_copyable_slice_spec (v : ArrayVec α N) (other : List α)
    (hv : v.len ≤ N) :
    (other.length ≤ N - v.len →
       (v.extend_from_copyable_slice other).2 = none ∧
       (v.extend_from_copyable_slice other).1.as_slice = v.as_slice ++ other) ∧
    (other.length > N - v.len →
       (v.extend_from_copyable_slice other).1.len = N ∧
       (v.extend_from_copyable_slice other).1.as_slice
         = v.as_slice ++ other.take (N - v.len) ∧
       (v.extend_from_copyable_slice other).2 = some (other.drop (N - v.len))) := by
  constructor
  · intro h
    have hc : ¬other.length > N - v.len := by omega
    refine ⟨by simp [ArrayVec.extend_from_copyable_slice, hc], ?_⟩
    simp only [ArrayVec.extend_from_copyable_slice, hc, if_false]
    apply List.ext_getElem
    · simp [ArrayVec.length_as_slice]
    · intro i hi1 hi2
      rw [ArrayVec.getElem_as_slice, List.getElem_append]
      simp only [ArrayVec.length_as_slice] at hi1 ⊢
      simp only [writeList]
      by_cases hx : i < v.len
      · rw [dif_pos hx, if_neg (by omega), ArrayVec.getElem_as_slice]
      · rw [dif_neg hx, if_pos ⟨by omega, by omega⟩]
        exact List.getD_eq_getElem other default (by omega)
  · intro h
    refine ⟨by simp [ArrayVec.extend_from_copyable_slice, h], ?_,
            by simp [ArrayVec.extend_from_copyable_slice, h]⟩
    simp only [ArrayVec.extend_from_copyable_slice, if_pos h]
    apply List.ext_getElem
    · simp [ArrayVec.length_as_slice]
      omega
    · intro i hi1 hi2
      rw [ArrayVec.getElem_as_slice, List.getElem_append]
      simp only [ArrayVec.length_as_slice] at hi1 ⊢
      simp only [writeList]
      have hlt : (other.take (N - v.len)).length = N - v.len := by
        simp [List.length_take]; omega
      by_cases hx : i < v.len
      · rw [dif_pos hx, if_neg (by omega), ArrayVec.getElem_as_slice]
      · rw [dif_neg hx, if_pos ⟨by omega, by omega⟩]
        exact List.getD_eq_getElem (other.take (N - v.len)) default (by omega)

/-- C8 witness: slice `[1, 2, 3]` into an empty capacity-2 vector copies
`[1, 2]`, leaves the vector full, and returns the suffix `[3]`; slice `[4]`
into `[2]` fits and succeeds. -/
theorem extend_from_copyable_slice_instance :
    ((ArrayVec.new : ArrayVec Nat 2).extend_from_copyable_slice [1, 2, 3]).1.len = 2 ∧
    ((ArrayVec.new : ArrayVec Nat 2).extend_from_copyable_slice [1, 2, 3]).1.as_slice = [1, 2] ∧
    ((ArrayVec.new : ArrayVec Nat 2).extend_from_copyable_slice [1, 2, 3]).2 = some [3] ∧
    (vOne.extend_from_copyable_slice [4]).2 = none ∧
    (vOne.extend_from_copyable_slice [4]).1.as_slice = [2, 4] := by
  have h2 := (extend_from_copyable_slice_spec (ArrayVec.new : ArrayVec Nat 2) [1, 2, 3]
    (by decide)).2 (by decide)
  have h1 := (extend_from_copyable_slice_spec vOne [4] (by decide)).1 (by decide)
  refine ⟨h2.1, ?_, ?_, h1.1, ?_⟩
  · rw [h2.2.1]; decide
  · rw [h2.2.2]; decide
  · rw [h1.2]; decide

/-- C9: `make_filled_array` with `M ≤ len` returns the first `M` elements in
order, shifts the elements at `[M, len)` to the front, and decreases the
length by `M`; with `len < M` it returns `None` and leaves the vector
unchanged. -/
theorem make_filled_array_spec (v : ArrayVec α N) (M : Nat) :
    (M ≤ v.len →
       (v.make_filled_array M).2 = some (v.as_slice.take M) ∧
       (v.make_filled_array M).1.as_slice = v.as_slice.drop M ∧
       (v.make_filled_array M).1.len = v.len - M) ∧
    (v.len < M → v.make_filled_array M = (v, none)) := by
  constructor
  · intro h
    refine ⟨?_, ?_, by simp [ArrayVec.make_filled_array, h]⟩
    · simp only [ArrayVec.make_filled_array, if_pos h]
      rw [ArrayVec.take_as_slice v h]
    · simp only [ArrayVec.make_filled_array, if_pos h]
      apply List.ext_getElem
      · simp [ArrayVec.length_as_slice]
      · intro i hi1 hi2
        rw [ArrayVec.getElem_as_slice, List.getElem_drop, ArrayVec.getElem_as_slice]
        simp only [ArrayVec.length_as_slice] at hi1
        simp only [ptrCopy]
        rw [if_pos ⟨Nat.zero_le i, by omega⟩]
        simp
  · intro h
    have hc : ¬M ≤ v.len := by omega
    simp [ArrayVec.make_filled_array, hc]

/-- C9 witness: on `[1, 2, 3]`, `make_filled_array 2` returns `[1, 2]` and
leaves `[3]` (length 1); `make_filled_array 4` fails and leaves the vector
unchanged. -/
theorem make_filled_array_instance :
    (v123.make_filled_array 2).2 = some [1, 2] ∧
    (v123.make_filled_array 2).1.as_slice = [3] ∧
    (v123.make_filled_array 2).1.len = 1 ∧
    v123.make_filled_array 4 = (v123, none) := by
  have h := (make_filled_array_spec v123 2).1 (by decide)
  refine ⟨?_, ?_, h.2.2, (make_filled_array_spec v123 4).2 (by decide)⟩
  · rw [h.1]; decide
  · rw [h.2.1]; decide

/-- C2: for a valid range `[start, stop)`, `drain` hands out a guard whose
iterator holds exactly the elements originally at that range, in order (each
is yielded exactly once as `next`/`next_back` consume the list), while the
container is cut back to the prefix `[0, start)`; and releasing the guard —
stated for an arbitrary remaining not-yet-yielded list `r`, which covers
iteration run to completion, partial consumption from either end, and
immediate abandonment, since consuming items changes only the `iter` field —
leaves the container equal to the original contents with the range removed,
the tail preserved in its original relative order. -/
theorem drain_yields_range_and_release_removes_it
    (v : ArrayVec α N) (start stop : Nat) (r : List α)
    (h1 : start ≤ stop) (h2 : stop ≤ v.len) :
    (v.drain start stop).1
      = some ⟨(v.as_slice.take stop).drop start, stop, v.len - stop⟩ ∧
    (v.drain start stop).2.as_slice = v.as_slice.take start ∧
    (Drain.release ⟨r, stop, v.len - stop⟩ (v.drain start stop).2).as_slice
      = v.as_slice.take start ++ v.as_slice.drop stop := by
  have hc : ¬(start > stop ∨ stop > v.len) := by omega
  have hs : start ≤ v.len := Nat.le_trans h1 h2
  have hdr : v.drain start stop
      = (some ⟨(List.range (stop - start)).map (fun i => v.data (start + i)),
               stop, v.len - stop⟩,
         (⟨v.data, start⟩ : ArrayVec α N)) := by
    simp only [ArrayVec.drain, hc, if_false]
  have hiter : (List.range (stop - start)).map (fun i => v.data (start + i))
      = (v.as_slice.take stop).drop start := by
    apply List.ext_getElem
    · simp [ArrayVec.length_as_slice]
      omega
    · intro i hi1 hi2
      simp only [List.getElem_map, List.getElem_range]
      rw [List.getElem_drop, List.getElem_take, ArrayVec.getElem_as_slice]
  refine ⟨?_, ?_, ?_⟩
  · rw [hdr, hiter]
  · rw [hdr]
    exact (ArrayVec.take_as_slice v hs).symm
  · rw [hdr]
    by_cases htl : v.len - stop = 0
    · have h0 : ¬0 < (⟨r, stop, v.len - stop⟩ : Drain α).tail_len := by
        simp [htl]
      simp only [Drain.release, if_neg h0]
      rw [ArrayVec.drop_as_slice, htl]
      simp only [List.range_zero, List.map_nil, List.append_nil]
      exact (ArrayVec.take_as_slice v hs).symm
    · have h0 : 0 < (⟨r, stop, v.len - stop⟩ : Drain α).tail_len := by
        simp; omega
      simp only [Drain.release, if_pos h0]
      rw [ArrayVec.take_as_slice v hs, ArrayVec.drop_as_slice]
      apply List.ext_getElem
      · simp [ArrayVec.length_as_slice]
      · intro i hi1 hi2
        rw [ArrayVec.getElem_as_slice, List.getElem_append]
        simp only [ArrayVec.length_as_slice] at hi1
        by_cases hx : i < start
        · have hcond : i < ((List.range start).map v.data).length := by simpa using hx
          rw [dif_pos hcond]
          simp only [List.getElem_map, List.getElem_range]
          by_cases hne : stop ≠ start
          · rw [if_pos hne]
            simp only [ptrCopy]
            rw [if_neg (by omega)]
          · rw [if_neg hne]
        · have hcond : ¬i < ((List.range start).map v.data).length := by simpa using hx
          rw [dif_neg hcond]
          simp only [List.getElem_map, List.getElem_range, List.length_map, List.length_range]
          by_cases hne : stop ≠ start
          · rw [if_pos hne]
            simp only [ptrCopy]
            rw [if_pos ⟨by omega, by omega⟩]
          · rw [if_neg hne]
            have hse : stop = start := by omega
            congr 1
            omega

/-- C2 witness, the spec's concrete scenario: capacity 3 holding `[1, 2, 3]`,
`drain(1..3)` yields `[2, 3]` and cuts the container to `[1]`; releasing the
guard with nothing left to yield leaves `[1]`. -/
theorem drain_spec_instance :
    (v123.drain 1 3).1
      = some ⟨(v123.as_slice.take 3).drop 1, 3, v123.len - 3⟩ ∧
    (v123.drain 1 3).2.as_slice = v123.as_slice.take 1 ∧
    (Drain.release ⟨[], 3, v123.len - 3⟩ (v123.drain 1 3).2).as_slice
      = v123.as_slice.take 1 ++ v123.as_slice.drop 3 :=
  drain_yields_range_and_release_removes_it v123 1 3 [] (by decide) (by decide)

/-- C1, code-bug witness at the failing input: capacity 3 holding
`[1, 2, 3]`, `splice(1..2, [7, 8, 9])` released without consuming any
yielded item leaves `len = 5 > 3 = N`: `Drain::move_tail`, unlike the
`Vec::splice` code it was ported from, has no way to grow (or check) the
fixed capacity, so the fill walks past the backing array and `Drain::drop`
restores a length above `N`. -/
theorem splice_release_exceeds_capacity :
    spliceScenario.len = 5 ∧ ¬spliceScenario.len ≤ 3 := by
  decide

/-- C3, code-bug witness at the failing input: for `[1, 2, 3]` with capacity
3, releasing `splice(1..2, [7, 8, 9])` produces the 5-element contents
`[1, 7, 8, 9, 3]` (the last two written beyond the backing array) instead of
a capacity-truncated result: no replacement item is silently dropped — the
excess is written out of bounds. -/
theorem splice_release_not_capacity_truncated :
    spliceScenario.as_slice = [1, 7, 8, 9, 3] ∧
    spliceScenario.as_slice ≠ [1, 7, 3] := by
  decide

end StackVec
